import Mathlib

/-!
Verification of the `png-framing` library (src/src/lib.rs): a raw RGBA
image type `Png<T>` with construction from a byte buffer, lazy-to-eager
materialization via the `framing` crate, encode/decode through the
`lodepng` codec, and a foreign-buffer adapter `Native` for codec-allocated
pixel memory.

Modelling conventions:
- Machine bytes (`u8`) are `Nat`; byte buffers (`&[u8]`, `Vec<u8>`) are
  `List Nat`.
- A Rust panic (`assert_eq!` failure) is `Option.none`; a recoverable
  `Result::Err(Error)` is `Except.error Error.mk`.
- The external `lodepng` codec is an abstract `Codec` structure; claims
  that assume codec behavior take that behavior as a hypothesis.
- The Rust `T: AsRef<[u8]>` bound is an explicit function `aref : T → List Nat`.
-/

/-- Modelled from the spec: the `framing` crate's `Rgba` pixel (not under
src/): four unsigned 8-bit channels in R, G, B, A byte order. -/
structure Rgba where
  r : Nat
  g : Nat
  b : Nat
  a : Nat
deriving DecidableEq, Repr

/-- Modelled from the spec: the 4-byte layout of a pixel, in R, G, B, A
order with no padding (spec section 6; `framing` crate not under src/). -/
def Rgba.toBytes (p : Rgba) : List Nat :=
  [p.r, p.g, p.b, p.a]

/-- Modelled from the spec: reading a 4-byte group back out as a pixel,
the inverse of `Rgba.toBytes` (the `[u8; 4] → Rgba` conversion lives in
the `framing` crate, not under src/). -/
def Rgba.ofBytes (r g b a : Nat) : Rgba :=
  ⟨r, g, b, a⟩

/-- `pub struct Png<T> { width: usize, height: usize, buffer: T }`
(src/src/lib.rs lines 28-32). -/
structure Png (T : Type) where
  width : Nat
  height : Nat
  buffer : T
deriving DecidableEq, Repr

/-- `Png::from_bytes` (src/src/lib.rs lines 87-94):
`assert_eq!(width * height * 4, buffer.as_ref().len())`, then stores the
three fields unchanged. The panic on assertion failure is `none`. -/
def Png.from_bytes {T : Type} (aref : T → List Nat) (width height : Nat)
    (buffer : T) : Option (Png T) :=
  if width * height * 4 = (aref buffer).length then
    some ⟨width, height, buffer⟩
  else
    none

/-- `Png::buffer` (src/src/lib.rs lines 67-69): borrows the buffer field. -/
def Png.bufferRef {T : Type} (p : Png T) : T :=
  p.buffer

/-- `Png::into_buffer` (src/src/lib.rs lines 75-77): recovers the buffer
field, consuming the value. -/
def Png.into_buffer {T : Type} (p : Png T) : T :=
  p.buffer

/-- `impl AsRef<[u8]> for Png<T>` (src/src/lib.rs lines 156-160):
`self.buffer.as_ref()`. -/
def Png.asRef {T : Type} (aref : T → List Nat) (p : Png T) : List Nat :=
  aref p.buffer

/-- The single unit-like error type (src/src/lib.rs line 219):
`pub struct Error;`. -/
structure Error where
deriving DecidableEq, Repr

/-- Result of a successful raw codec decode: `lodepng::decode32` returns a
bitmap with a width, a height, and a buffer of RGBA pixel elements. -/
structure Bitmap where
  width : Nat
  height : Nat
  buffer : List Rgba

/-- Opaque file path for the file-based codec entry points. -/
def FsPath : Type := List Nat

/-- The external `lodepng` codec boundary, abstract: each entry point
either succeeds with its result or reports an error (`none`). -/
structure Codec where
  encode32 : List Nat → Nat → Nat → Option (List Nat)
  decode32 : List Nat → Option Bitmap
  encode32_file : FsPath → List Nat → Nat → Nat → Option Unit
  decode32_file : FsPath → Option Bitmap

/-- `Native` (src/src/lib.rs line 193): a codec-allocated pixel array
together with the byte length stored at construction. -/
structure Native where
  cvec : List Rgba
  len : Nat
deriving DecidableEq, Repr

/-- `Native::new` (src/src/lib.rs lines 195-200): stores the buffer and a
length of `buffer.len() * mem::size_of::<lodepng::RGBA<u8>>()`, where an
RGBA element is 4 bytes. -/
def Native.new (buffer : List Rgba) : Native :=
  ⟨buffer, buffer.length * 4⟩

/-- `impl AsRef<[u8]> for Native` (src/src/lib.rs lines 202-211): a byte
view of the pixel array of exactly the stored length, obtained by
reinterpreting the 4-byte pixel elements as flat bytes. -/
def Native.asRef (n : Native) : List Nat :=
  (n.cvec.flatMap Rgba.toBytes).take n.len

/-- `Png::decode` (src/src/lib.rs lines 36-48): run the codec; on codec
failure return `Err(Error)`; on success
`assert_eq!(bmp.buffer.len(), bmp.width * bmp.height)` (panic = `none`),
then wrap the bitmap buffer with `Native::new`. -/
def Png.decode (c : Codec) (bytes : List Nat) :
    Option (Except Error (Png Native)) :=
  match c.decode32 bytes with
  | some bmp =>
      if bmp.buffer.length = bmp.width * bmp.height then
        some (Except.ok ⟨bmp.width, bmp.height, Native.new bmp.buffer⟩)
      else
        none
  | none => some (Except.error Error.mk)

/-- `Png::load` (src/src/lib.rs lines 51-63): identical to `decode` but
through `lodepng::decode32_file` on a path. -/
def Png.load (c : Codec) (path : FsPath) :
    Option (Except Error (Png Native)) :=
  match c.decode32_file path with
  | some bmp =>
      if bmp.buffer.length = bmp.width * bmp.height then
        some (Except.ok ⟨bmp.width, bmp.height, Native.new bmp.buffer⟩)
      else
        none
  | none => some (Except.error Error.mk)

/-- `Png::encode` (src/src/lib.rs lines 119-130):
`lodepng::encode32(self.buffer.as_ref(), self.width, self.height)`,
mapping codec failure to `Err(Error)`. -/
def Png.encode {T : Type} (c : Codec) (aref : T → List Nat) (p : Png T) :
    Except Error (List Nat) :=
  match c.encode32 (aref p.buffer) p.width p.height with
  | some v => Except.ok v
  | none => Except.error Error.mk

/-- `Png::save` (src/src/lib.rs lines 101-116):
`lodepng::encode32_file(path, self.buffer.as_ref(), self.width,
self.height)`, mapping codec failure to `Err(Error)`. -/
def Png.save {T : Type} (c : Codec) (aref : T → List Nat) (p : Png T)
    (path : FsPath) : Except Error Unit :=
  match c.encode32_file path (aref p.buffer) p.width p.height with
  | some _ => Except.ok ()
  | none => Except.error Error.mk

/-- Modelled from the spec: the `framing` crate's image capability (width,
height, pixel at in-bounds coordinates), specialized to function-backed
frames; the `framing` crate is not under src/. -/
structure Frame (α : Type) where
  width : Nat
  height : Nat
  pixel : Nat → Nat → α

/-- Modelled from the spec: `framing::map` — a pure pixel-wise transform
producing a new lazy image (spec section 4.1; not under src/). -/
def Frame.mapPixels {α β : Type} (g : α → β) (S : Frame α) : Frame β :=
  ⟨S.width, S.height, fun x y => g (S.pixel x y)⟩

/-- Modelled from the spec: the materialization algorithm of
`Chunky::new(...).into_bytes()` (spec section 4.3; the `framing` crate is
not under src/): for each row `y` in `[0, height)`, for each column `x` in
`[0, width)`, write the 4 bytes of `source.pixel(x, y)` at offset
`4*(y*width+x)`, row-major with no padding. -/
def materializeBytes (S : Frame Rgba) : List Nat :=
  (List.range S.height).flatMap fun y =>
    (List.range S.width).flatMap fun x => (S.pixel x y).toBytes

/-- `Png::new` (src/src/lib.rs lines 140-144) composed with
`From<Chunky<Rgba>> for Png<Vec<u8>>` (lines 146-154):
`Chunky::new(framing::map(|x| x.into(), frame)).into()`, where `conv`
plays the role of the `T::Pixel: Into<Rgba>` conversion. -/
def Png.new {α : Type} (conv : α → Rgba) (frame : Frame α) :
    Png (List Nat) :=
  { width := frame.width
    height := frame.height
    buffer := materializeBytes (frame.mapPixels conv) }

/-- The 4-byte copy of `ptr::copy_nonoverlapping` in `Png::pixel`
(src/src/lib.rs lines 177-184) followed by the `bytes.into()` conversion:
read the bytes at `off .. off+3` and assemble them in R, G, B, A order.
An out-of-bounds read (undefined behavior in the source) is `none`. -/
def read4 (buf : List Nat) (off : Nat) : Option Rgba :=
  match buf[off]?, buf[off + 1]?, buf[off + 2]?, buf[off + 3]? with
  | some r, some g, some b, some a => some (Rgba.ofBytes r g b a)
  | _, _, _, _ => none

/-- `Png::pixel` from `impl Image for Png<T>` (src/src/lib.rs lines
174-186): an unchecked 4-byte read at offset `4 * (y * self.width + x)`
from `self.buffer.as_ref()`. -/
def Png.pixel {T : Type} (aref : T → List Nat) (p : Png T) (x y : Nat) :
    Option Rgba :=
  read4 (aref p.buffer) (4 * (y * p.width + x))

/-! ## Helper lemmas about flat, uniform-chunk buffers -/

/-- Indexing into a `flatMap` whose chunks all have length `n`: the byte at
flat position `i * n + j` (with `j < n`) is byte `j` of chunk `i`. -/
theorem getElem?_flatMap_uniform {α β : Type} (g : α → List β) (n : Nat)
    (L : List α) (h : ∀ a ∈ L, (g a).length = n)
    (i j : Nat) (hj : j < n) :
    (L.flatMap g)[i * n + j]? = L[i]?.bind (fun a => (g a)[j]?) := by
  induction L generalizing i with
  | nil => simp
  | cons a L ih =>
      rw [List.flatMap_cons]
      cases i with
      | zero =>
          rw [Nat.zero_mul, Nat.zero_add,
            List.getElem?_append_left (by rw [h a (by simp)]; exact hj)]
          simp
      | succ i =>
          have hlen : (g a).length = n := h a (by simp)
          have hle : (g a).length ≤ (i + 1) * n + j := by
            rw [hlen, Nat.succ_mul]
            omega
          rw [List.getElem?_append_right hle, hlen]
          have harith : (i + 1) * n + j - n = i * n + j := by
            rw [Nat.succ_mul]; omega
          rw [harith, ih (fun b hb => h b (by simp [hb]))]
          simp

/-- Length of a `flatMap` whose chunks all have length `n`. -/
theorem length_flatMap_uniform {α β : Type} (g : α → List β) (n : Nat)
    (L : List α) (h : ∀ a ∈ L, (g a).length = n) :
    (L.flatMap g).length = L.length * n := by
  induction L with
  | nil => simp
  | cons a L ih =>
      rw [List.flatMap_cons, List.length_append, h a (by simp),
        ih (fun b hb => h b (by simp [hb])), List.length_cons]
      ring

/-- The materialized buffer has exactly `width * height * 4` bytes. -/
theorem materializeBytes_length (S : Frame Rgba) :
    (materializeBytes S).length = S.width * S.height * 4 := by
  unfold materializeBytes
  rw [length_flatMap_uniform _ (S.width * 4) _
    (fun yy _ => length_flatMap_uniform
      (fun x => (S.pixel x yy).toBytes) 4 (List.range S.width)
      (fun _ _ => rfl) |>.trans (by rw [List.length_range])),
    List.length_range]
  ring

/-- Byte `k` of the materialized buffer at pixel offset `4*(y*width+x)` is
byte `k` of `S.pixel x y`, for in-bounds coordinates. -/
theorem materializeBytes_getElem (S : Frame Rgba) (x y k : Nat)
    (hx : x < S.width) (hy : y < S.height) (hk : k < 4) :
    (materializeBytes S)[4 * (y * S.width + x) + k]? =
      (S.pixel x y).toBytes[k]? := by
  unfold materializeBytes
  have hidx : 4 * (y * S.width + x) + k = y * (S.width * 4) + (4 * x + k) := by
    ring
  rw [hidx,
    getElem?_flatMap_uniform _ (S.width * 4) _
      (fun yy _ => length_flatMap_uniform
        (fun x => (S.pixel x yy).toBytes) 4 (List.range S.width)
        (fun _ _ => rfl) |>.trans (by rw [List.length_range]))
      y (4 * x + k) (by omega),
    List.getElem?_range hy]
  have hidx2 : 4 * x + k = x * 4 + k := by ring
  rw [Option.some_bind, hidx2,
    getElem?_flatMap_uniform (fun xx => (S.pixel xx y).toBytes) 4
      (List.range S.width) (fun _ _ => rfl) x k hk,
    List.getElem?_range hx, Option.some_bind]

/-- A `read4` whose full 4-byte range is in bounds succeeds and returns
exactly the four bytes at `off .. off+3`. -/
theorem read4_in_bounds (buf : List Nat) (off : Nat)
    (h : off + 4 ≤ buf.length) :
    read4 buf off =
      some ⟨buf.getD off 0, buf.getD (off + 1) 0,
            buf.getD (off + 2) 0, buf.getD (off + 3) 0⟩ := by
  unfold read4
  rw [List.getElem?_eq_getElem (by omega), List.getElem?_eq_getElem (by omega),
    List.getElem?_eq_getElem (by omega), List.getElem?_eq_getElem (by omega)]
  rw [List.getD_eq_getElem _ _ (by omega), List.getD_eq_getElem _ _ (by omega),
    List.getD_eq_getElem _ _ (by omega), List.getD_eq_getElem _ _ (by omega)]
  rfl

/-! ## Claim theorems -/

/-- Claim C2: `Png::from_bytes width height buffer` succeeds exactly when
`buffer.len() = width * height * 4`, in which case the resulting `Png`
stores the width, the height and the buffer unchanged; every mismatched
length is a hard failure (panic, modelled as `none`), never a truncation
or padding. -/
theorem from_bytes_length_invariant {T : Type} (aref : T → List Nat)
    (w h : Nat) (b : T) :
    (∀ p : Png T, Png.from_bytes aref w h b = some p ↔
      ((aref b).length = w * h * 4 ∧ p.width = w ∧ p.height = h ∧
        p.buffer = b)) ∧
    ((aref b).length ≠ w * h * 4 → Png.from_bytes aref w h b = none) := by
  constructor
  · intro p
    unfold Png.from_bytes
    constructor
    · intro hp
      split at hp
      · cases hp
        exact ⟨by omega, rfl, rfl, rfl⟩
      · cases hp
    · rintro ⟨hlen, hw, hh, hb⟩
      rw [if_pos (by omega)]
      cases p
      simp_all
  · intro hne
    unfold Png.from_bytes
    rw [if_neg (by omega)]

/-- Witness for C2 at a concrete input: a 1×1 image from a 4-byte buffer
succeeds with all fields unchanged, and a 3-byte buffer panics. -/
theorem from_bytes_length_invariant_witness :
    Png.from_bytes (id : List Nat → List Nat) 1 1 [10, 20, 30, 40] =
      some ⟨1, 1, [10, 20, 30, 40]⟩ ∧
    Png.from_bytes (id : List Nat → List Nat) 1 1 [10, 20, 30] = none :=
  ⟨((from_bytes_length_invariant id 1 1 [10, 20, 30, 40]).1
      ⟨1, 1, [10, 20, 30, 40]⟩).2 ⟨by decide, rfl, rfl, rfl⟩,
   (from_bytes_length_invariant id 1 1 [10, 20, 30]).2 (by decide)⟩

/-- Claim C9: for every buffer satisfying the length invariant,
construction followed by `into_buffer` recovers exactly the original
buffer, and `buffer()` / `as_ref()` on the constructed value expose the
same bytes unchanged. -/
theorem buffer_recovery_identity {T : Type} (aref : T → List Nat)
    (w h : Nat) (b : T) (hlen : (aref b).length = w * h * 4) :
    (Png.from_bytes aref w h b).map Png.into_buffer = some b ∧
    (Png.from_bytes aref w h b).map Png.bufferRef = some b ∧
    (Png.from_bytes aref w h b).map (Png.asRef aref) = some (aref b) := by
  unfold Png.from_bytes
  rw [if_pos (by omega)]
  exact ⟨rfl, rfl, rfl⟩

/-- Witness for C9 at a concrete input. -/
theorem buffer_recovery_identity_witness :
    (Png.from_bytes (id : List Nat → List Nat) 2 1
      [1, 2, 3, 4, 5, 6, 7, 8]).map Png.into_buffer =
      some [1, 2, 3, 4, 5, 6, 7, 8] :=
  (buffer_recovery_identity id 2 1 [1, 2, 3, 4, 5, 6, 7, 8] (by decide)).1

/-- The byte view of a freshly wrapped pixel array has exactly
`element count * 4` bytes. -/
theorem asRef_new_length (buffer : List Rgba) :
    (Native.new buffer).asRef.length = buffer.length * 4 := by
  unfold Native.new Native.asRef
  rw [List.length_take,
    length_flatMap_uniform Rgba.toBytes 4 buffer (fun _ _ => rfl)]
  simp

/-- Claim C7: for every codec-allocated pixel array wrapped by
`Native::new`, the byte view exposed through `as_ref()` has length exactly
`len * 4`, `len` being the element count of the pixel array. -/
theorem native_byte_view_length (buffer : List Rgba) :
    (Native.new buffer).asRef.length = buffer.length * 4 :=
  asRef_new_length buffer

/-- Claim C8: `encode` is a pure function of the buffer bytes, the width
and the height, so two runs of `encode` on the same eager image (equal
fields) produce byte-identical results, the codec being deterministic by
construction of the model. -/
theorem encode_deterministic {T1 T2 : Type} (c : Codec)
    (a1 : T1 → List Nat) (a2 : T2 → List Nat) (E1 : Png T1) (E2 : Png T2)
    (hw : E1.width = E2.width) (hh : E1.height = E2.height)
    (hb : a1 E1.buffer = a2 E2.buffer) :
    Png.encode c a1 E1 = Png.encode c a2 E2 := by
  unfold Png.encode
  rw [hw, hh, hb]

/-- Witness for C8 at a concrete input: encoding the same concrete image
twice through a concrete codec gives identical results. -/
theorem encode_deterministic_witness :
    Png.encode ⟨fun b _ _ => some b, fun _ => none, fun _ _ _ _ => none,
        fun _ => none⟩ (id : List Nat → List Nat) ⟨1, 1, [9, 9, 9, 9]⟩ =
      Png.encode ⟨fun b _ _ => some b, fun _ => none, fun _ _ _ _ => none,
        fun _ => none⟩ (id : List Nat → List Nat) ⟨1, 1, [9, 9, 9, 9]⟩ :=
  encode_deterministic _ id id ⟨1, 1, [9, 9, 9, 9]⟩ ⟨1, 1, [9, 9, 9, 9]⟩
    rfl rfl rfl

/-- A codec whose every entry point fails, for exercising the error
paths. -/
def nullCodec : Codec :=
  ⟨fun _ _ _ => none, fun _ => none, fun _ _ _ _ => none, fun _ => none⟩

/-- Claim C5: the error type has a single value, and every codec-reported
failure in `decode`, `load`, `encode` and `save` is mapped to that one
opaque value as a normal error result — in particular a failing `decode`
(corrupt or empty input) returns `Err(Error)` (`some (error ...)` in the
model) rather than panicking (`none`). -/
theorem single_opaque_error {T : Type} (c : Codec) (bytes : List Nat)
    (path : FsPath) (aref : T → List Nat) (p : Png T) :
    (∀ e1 e2 : Error, e1 = e2) ∧
    (c.decode32 bytes = none →
      Png.decode c bytes = some (Except.error Error.mk)) ∧
    (c.decode32_file path = none →
      Png.load c path = some (Except.error Error.mk)) ∧
    (c.encode32 (aref p.buffer) p.width p.height = none →
      Png.encode c aref p = Except.error Error.mk) ∧
    (c.encode32_file path (aref p.buffer) p.width p.height = none →
      Png.save c aref p path = Except.error Error.mk) := by
  refine ⟨fun e1 e2 => rfl, fun hd => ?_, fun hl => ?_, fun he => ?_,
    fun hs => ?_⟩
  · unfold Png.decode
    rw [hd]
  · unfold Png.load
    rw [hl]
  · unfold Png.encode
    rw [he]
  · unfold Png.save
    rw [hs]

/-- Witness for C5 at a concrete input: the always-failing codec on a
0-byte input yields the opaque error on all four paths. -/
theorem single_opaque_error_witness :
    Png.decode nullCodec [] = some (Except.error Error.mk) ∧
    Png.load nullCodec [] = some (Except.error Error.mk) ∧
    Png.encode nullCodec (id : List Nat → List Nat) ⟨1, 1, [0, 0, 0, 0]⟩ =
      Except.error Error.mk ∧
    Png.save nullCodec (id : List Nat → List Nat) ⟨1, 1, [0, 0, 0, 0]⟩ [] =
      Except.error Error.mk := by
  have t := single_opaque_error nullCodec [] [] (id : List Nat → List Nat)
    ⟨1, 1, [0, 0, 0, 0]⟩
  exact ⟨t.2.1 rfl, t.2.2.1 rfl, t.2.2.2.1 rfl, t.2.2.2.2 rfl⟩

/-- Claim C6: after a successful raw codec decode, both `decode` and
`load` assert that the decoded element count equals `width * height`: a
violation is a panic (`none`), not the recoverable error, and when the
codec honors its contract (element count equal to `width * height`) the
assertion passes and decoding succeeds, so the panic branch is
unreachable. -/
theorem decode_count_assertion (c : Codec) (bytes : List Nat)
    (path : FsPath) (bmp : Bitmap) :
    (c.decode32 bytes = some bmp →
      bmp.buffer.length ≠ bmp.width * bmp.height →
      Png.decode c bytes = none) ∧
    (c.decode32 bytes = some bmp →
      bmp.buffer.length = bmp.width * bmp.height →
      Png.decode c bytes =
        some (Except.ok ⟨bmp.width, bmp.height, Native.new bmp.buffer⟩)) ∧
    (c.decode32_file path = some bmp →
      bmp.buffer.length ≠ bmp.width * bmp.height →
      Png.load c path = none) ∧
    (c.decode32_file path = some bmp →
      bmp.buffer.length = bmp.width * bmp.height →
      Png.load c path =
        some (Except.ok ⟨bmp.width, bmp.height, Native.new bmp.buffer⟩)) := by
  refine ⟨fun hd hne => ?_, fun hd heq => ?_, fun hl hne => ?_,
    fun hl heq => ?_⟩
  · unfold Png.decode
    rw [hd]
    exact if_neg hne
  · unfold Png.decode
    rw [hd]
    exact if_pos heq
  · unfold Png.load
    rw [hl]
    exact if_neg hne
  · unfold Png.load
    rw [hl]
    exact if_pos heq

/-- Witness for C6 at concrete inputs: a codec breaching the contract
(2 elements for a claimed 1×1 image) makes `decode` panic, and a codec
honoring it makes `decode` succeed. -/
theorem decode_count_assertion_witness :
    Png.decode ⟨fun _ _ _ => none,
        fun _ => some ⟨1, 1, [⟨0, 0, 0, 0⟩, ⟨0, 0, 0, 0⟩]⟩,
        fun _ _ _ _ => none, fun _ => none⟩ [] = none ∧
    Png.decode ⟨fun _ _ _ => none, fun _ => some ⟨1, 1, [⟨5, 6, 7, 8⟩]⟩,
        fun _ _ _ _ => none, fun _ => none⟩ [] =
      some (Except.ok ⟨1, 1, Native.new [⟨5, 6, 7, 8⟩]⟩) := by
  constructor
  · exact (decode_count_assertion _ [] []
      ⟨1, 1, [⟨0, 0, 0, 0⟩, ⟨0, 0, 0, 0⟩]⟩).1 rfl (by decide)
  · exact (decode_count_assertion _ [] [] ⟨1, 1, [⟨5, 6, 7, 8⟩]⟩).2.1 rfl
      (by decide)

/-- Claim C10: under the buffer-length invariant and for in-bounds
coordinates, the 4-byte read of `pixel(x, y)` at offset
`4*(y*width+x)` lies entirely within the buffer, so the unchecked access
never reads past the end and the read succeeds. -/
theorem pixel_read_in_bounds {T : Type} (aref : T → List Nat) (p : Png T)
    (hlen : (aref p.buffer).length = p.width * p.height * 4)
    (x y : Nat) (hx : x < p.width) (hy : y < p.height) :
    4 * (y * p.width + x) + 4 ≤ (aref p.buffer).length ∧
    (Png.pixel aref p x y).isSome := by
  have hoff : 4 * (y * p.width + x) + 4 ≤ (aref p.buffer).length := by
    have h1 : y * p.width + x < p.height * p.width :=
      calc y * p.width + x < y * p.width + p.width := by omega
        _ = (y + 1) * p.width := by ring
        _ ≤ p.height * p.width := Nat.mul_le_mul_right _ (by omega)
    have h2 : p.width * p.height * 4 = p.height * p.width * 4 := by ring
    omega
  refine ⟨hoff, ?_⟩
  unfold Png.pixel
  rw [read4_in_bounds _ _ hoff]
  rfl

/-- Witness for C10 at a concrete input: a 2×2 image with a 16-byte
buffer, reading pixel (1, 1). -/
theorem pixel_read_in_bounds_witness :
    4 * (1 * 2 + 1) + 4 ≤
      (id ((⟨2, 2, List.range 16⟩ : Png (List Nat))).buffer).length ∧
    (Png.pixel id (⟨2, 2, List.range 16⟩ : Png (List Nat)) 1 1).isSome :=
  pixel_read_in_bounds id ⟨2, 2, List.range 16⟩ (by decide) 1 1
    (by decide) (by decide)

/-- Claim C4: under the buffer-length invariant and for in-bounds
coordinates, `pixel(x, y)` returns exactly the pixel whose channel bytes
are `buffer[4*(y*width+x)]` through `buffer[4*(y*width+x)+3]`, in R, G,
B, A order — so the first byte of the buffer is the red channel of pixel
(0, 0) and the row stride is exactly `width * 4` with no padding. -/
theorem pixel_buffer_layout {T : Type} (aref : T → List Nat) (p : Png T)
    (hlen : (aref p.buffer).length = p.width * p.height * 4)
    (x y : Nat) (hx : x < p.width) (hy : y < p.height) :
    Png.pixel aref p x y =
      some ⟨(aref p.buffer).getD (4 * (y * p.width + x)) 0,
            (aref p.buffer).getD (4 * (y * p.width + x) + 1) 0,
            (aref p.buffer).getD (4 * (y * p.width + x) + 2) 0,
            (aref p.buffer).getD (4 * (y * p.width + x) + 3) 0⟩ := by
  have hoff := (pixel_read_in_bounds aref p hlen x y hx hy).1
  unfold Png.pixel
  rw [read4_in_bounds _ _ hoff]

/-- Witness for C4 at a concrete input: in a 2×1 image, pixel (1, 0) is
bytes 4..7 of the buffer in R, G, B, A order. -/
theorem pixel_buffer_layout_witness :
    Png.pixel id (⟨2, 1, [1, 2, 3, 4, 5, 6, 7, 8]⟩ : Png (List Nat)) 1 0 =
      some ⟨5, 6, 7, 8⟩ := by
  have t := pixel_buffer_layout id
    (⟨2, 1, [1, 2, 3, 4, 5, 6, 7, 8]⟩ : Png (List Nat)) (by decide) 1 0
    (by decide) (by decide)
  rw [t]
  rfl

/-- Claim C3: the eager materialization `Png::new S` of an image-capable
source S has the same width and height as S, and for all in-bounds
coordinates its `pixel(x, y)` equals `S.pixel(x, y)` converted to RGBA. -/
theorem materialization_equivalence {α : Type} (conv : α → Rgba)
    (S : Frame α) (x y : Nat) (hx : x < S.width) (hy : y < S.height) :
    (Png.new conv S).width = S.width ∧
    (Png.new conv S).height = S.height ∧
    Png.pixel id (Png.new conv S) x y = some (conv (S.pixel x y)) := by
  refine ⟨rfl, rfl, ?_⟩
  show read4 (materializeBytes (S.mapPixels conv))
    (4 * (y * (S.mapPixels conv).width + x)) = some (conv (S.pixel x y))
  unfold read4
  have h0 := materializeBytes_getElem (S.mapPixels conv) x y 0 hx hy
    (by omega)
  have h1 := materializeBytes_getElem (S.mapPixels conv) x y 1 hx hy
    (by omega)
  have h2 := materializeBytes_getElem (S.mapPixels conv) x y 2 hx hy
    (by omega)
  have h3 := materializeBytes_getElem (S.mapPixels conv) x y 3 hx hy
    (by omega)
  rw [Nat.add_zero] at h0
  rw [h0, h1, h2, h3]
  rfl

/-- Witness for C3 at a concrete input: a 2×2 gray-coded source mapped
through a red-channel conversion, sampled at (1, 1). -/
theorem materialization_equivalence_witness :
    Png.pixel id (Png.new (fun n : Nat => (⟨n, 0, 0, 255⟩ : Rgba))
      ⟨2, 2, fun x y => x + 2 * y⟩) 1 1 = some ⟨3, 0, 0, 255⟩ :=
  (materialization_equivalence (fun n : Nat => (⟨n, 0, 0, 255⟩ : Rgba))
    ⟨2, 2, fun x y => x + 2 * y⟩ 1 1 (by decide) (by decide)).2.2

/-- Claim C1: when the codec inverts its own encoding on the RGBA8888
layout, then for every eager image E built by `Png::new` from a mapping
function, a successful `E.encode()` decodes back (without the assertion
panicking and without an error) to an image whose byte buffer equals E's
buffer byte-for-byte. -/
theorem roundtrip_fidelity {α : Type} (c : Codec) (conv : α → Rgba)
    (S : Frame α) (out : List Nat)
    (hinv : ∀ buf w h o, c.encode32 buf w h = some o →
      ∃ d : Bitmap, c.decode32 o = some d ∧ d.width = w ∧ d.height = h ∧
        (Native.new d.buffer).asRef = buf)
    (henc : Png.encode c id (Png.new conv S) = Except.ok out) :
    ∃ P : Png Native, Png.decode c out = some (Except.ok P) ∧
      Png.asRef Native.asRef P = (Png.new conv S).buffer := by
  unfold Png.encode at henc
  split at henc
  case h_2 => cases henc
  case h_1 v hv =>
    cases henc
    obtain ⟨d, hdec, hdw, hdh, hdref⟩ := hinv _ _ _ _ hv
    have hElen : ((Png.new conv S).buffer).length =
        S.width * S.height * 4 :=
      materializeBytes_length (S.mapPixels conv)
    have hdlen : d.buffer.length * 4 = S.width * S.height * 4 := by
      rw [← asRef_new_length d.buffer, hdref]
      exact hElen
    have hcount : d.buffer.length = d.width * d.height := by
      rw [hdw, hdh]
      show d.buffer.length = S.width * S.height
      generalize hA : S.width * S.height = A at hdlen
      omega
    refine ⟨⟨d.width, d.height, Native.new d.buffer⟩, ?_, ?_⟩
    · unfold Png.decode
      rw [hdec]
      exact if_pos hcount
    · exact hdref

/-- A concrete codec that encodes the single 1×1 image `[7, 8, 9, 10]` to
`[99]` and decodes `[99]` back, inverting itself on its domain. -/
def tinyEncode (buf : List Nat) (w h : Nat) : Option (List Nat) :=
  if buf = [7, 8, 9, 10] ∧ w = 1 ∧ h = 1 then some [99] else none

/-- Decoding half of the concrete single-image codec. -/
def tinyDecode (l : List Nat) : Option Bitmap :=
  if l = [99] then some ⟨1, 1, [⟨7, 8, 9, 10⟩]⟩ else none

/-- The concrete single-image codec. -/
def tinyCodec : Codec :=
  ⟨tinyEncode, tinyDecode, fun _ _ _ _ => none, fun _ => none⟩

/-- Witness for C1 at a concrete input: a 1×1 image round-trips through
the concrete codec with its buffer intact. -/
theorem roundtrip_fidelity_witness :
    ∃ P : Png Native, Png.decode tinyCodec [99] = some (Except.ok P) ∧
      Png.asRef Native.asRef P =
        (Png.new (id : Rgba → Rgba)
          ⟨1, 1, fun _ _ => ⟨7, 8, 9, 10⟩⟩).buffer := by
  refine roundtrip_fidelity tinyCodec id ⟨1, 1, fun _ _ => ⟨7, 8, 9, 10⟩⟩
    [99] ?_ ?_
  · intro buf w h o he
    have he2 : tinyEncode buf w h = some o := he
    unfold tinyEncode at he2
    split at he2
    · rename_i hc
      obtain ⟨hb, hw, hh⟩ := hc
      cases he2
      refine ⟨⟨1, 1, [⟨7, 8, 9, 10⟩]⟩, rfl, hw.symm, hh.symm, ?_⟩
      rw [hb]
      rfl
    · cases he2
  · rfl
